import Mathlib

/-!
Verification of the generic BLAS/LAPACK kernel fragment: the Householder
reflector application `larf` with its `vector_that_starts_with_one` view
adapter (src/include/lapack/larf.hpp), the `lassq` stub
(src/include/lapack/lassq.hpp), and the Level-2/Level-3 kernel contracts
exercised by src/test/blas/src/test_corner_cases.cpp.

The scalar type is an arbitrary commutative star ring `R` (instantiated at
`ℤ`, whose star is the identity, for concrete evaluations); `star` plays the
role of complex conjugation, so `v^H` entries are `star (v i)`.
-/

section Defs

variable {R : Type} [CommRing R] [StarRing R] [DecidableEq R]

/-- A vector view: a length `n` plus strided element access, as required of
the vector abstraction by the spec (size query plus element access).
Indices at or past `n` are never logically referenced. -/
structure VecView (R : Type) where
  n : ℕ
  get : ℕ → R

/-- A matrix view: an `m × n` rectangle with element access and a write
policy flag (`writable = true` means dense write access is granted). -/
structure MatView (R : Type) where
  m : ℕ
  n : ℕ
  get : ℕ → ℕ → R
  writable : Bool

/-- The `size` free function on vector views. -/
def size (v : VecView R) : ℕ := v.n

/-- The adapter class from larf.hpp: it stores (a reference to) the wrapped
vector `v_` and nothing else. -/
structure vector_that_starts_with_one (R : Type) where
  v_ : VecView R

/-- `operator[]` of `vector_that_starts_with_one`: index `0` reads as `T(1)`,
any other index passes through to the wrapped vector. -/
def vector_that_starts_with_one.get (w : vector_that_starts_with_one R) (i : ℕ) : R :=
  if i = 0 then 1 else w.v_.get i

/-- Alias for the plain `size`, usable inside the adapter's overload (where
the bare name would resolve to the overload itself). -/
def sizePlain (v : VecView R) : ℕ := size v

/-- The `size` overload for the adapter from larf.hpp: `size(v.v_)`. -/
def vector_that_starts_with_one.size (w : vector_that_starts_with_one R) : ℕ :=
  sizePlain w.v_

/-- The adapter seen through the generic vector interface (size plus element
access); this is what the `gemv`/`ger` kernels observe when larf passes the
adapter to them. -/
def vector_that_starts_with_one.toVec (w : vector_that_starts_with_one R) : VecView R :=
  ⟨w.v_.n, w.get⟩

/-- Shorthand for the element function of the adapted view of `v` (the
Householder vector with its implicit leading unit element). -/
def vOne (v : VecView R) : ℕ → R :=
  (vector_that_starts_with_one.mk v).get

/-- A slice specification `[first, last)`, as consumed by `subvector`. -/
structure SliceSpec where
  first : ℕ
  last : ℕ

/-- Modelled from the spec: `subvector` of the underlying generic vector type
is not under src/ (the spec only requires sub-range slicing preserving
access semantics); it yields the window `[rows.first, rows.last)`. -/
def subvector (v : VecView R) (rows : SliceSpec) : VecView R :=
  ⟨rows.last - rows.first, fun i => v.get (rows.first + i)⟩

/-- Alias for the plain `subvector`, usable inside the adapter's overload
(where the bare name would resolve to the overload itself). -/
def subvectorPlain (v : VecView R) (rows : SliceSpec) : VecView R :=
  subvector v rows

/-- The two possible results of sub-ranging an adapted view: another adapted
view, or a plain view into the underlying vector. -/
inductive SubvecResult (R : Type) where
  | adapted (w : vector_that_starts_with_one R)
  | plain (v : VecView R)

/-- The `subvector` overload for the adapter from larf.hpp: a slice starting
at index 0 wraps the sliced underlying vector in a fresh adapter, any other
slice is a plain slice of the underlying vector. -/
def vector_that_starts_with_one.subvector (w : vector_that_starts_with_one R)
    (rows : SliceSpec) : SubvecResult R :=
  if rows.first = 0 then
    SubvecResult.adapted ⟨subvectorPlain w.v_ rows⟩
  else
    SubvecResult.plain (subvectorPlain w.v_ rows)

/-- Element read of a sub-ranging result, through whichever view it is. -/
def SubvecResult.read : SubvecResult R → ℕ → R
  | SubvecResult.adapted w, i => w.get i
  | SubvecResult.plain v, i => v.get i

/-- Transpose modes of the Level-2/Level-3 kernels. -/
inductive Op where
  | NoTrans
  | Trans
  | ConjTrans
deriving DecidableEq

/-- Triangular structure tags. -/
inductive Uplo where
  | Upper
  | Lower
deriving DecidableEq

/-- Error kinds observable from this fragment: the recoverable
`InvalidArgument` failure of the spec, and the raw `std::exception` thrown
by the `lassq` stub. -/
inductive Err where
  | invalidArgument
  | stdException
deriving DecidableEq

/-- Modelled from the spec: `write_policy` (from the utils header, not under
src/) reports the write-access policy tag of a matrix view. -/
def write_policy (C : MatView R) : Bool := C.writable

/-- Modelled from the spec: `access_denied dense (write_policy C)` holds when
dense write access to `C` is not granted. -/
def access_denied (p : Bool) : Bool := !p

namespace blas

/-- Modelled from the spec: the Level-2 `gemv` kernel, `y := alpha·op(A)·x +
beta·y` (§4.3), with the rule that for `beta = 0` the destination is never
read and the result is written directly. Entries of `y` outside the written
extent (`A.m` rows for `NoTrans`, `A.n` for the transposed modes) are left
untouched. The implementation is not under src/; only larf and the corner
case tests reference it. -/
def gemv (op : Op) (alpha : R) (A : MatView R) (x : VecView R) (beta : R)
    (y : VecView R) : VecView R :=
  match op with
  | Op.NoTrans =>
      ⟨y.n, fun i =>
        if i < A.m then
          if beta = 0 then alpha * ∑ j ∈ Finset.range A.n, A.get i j * x.get j
          else alpha * (∑ j ∈ Finset.range A.n, A.get i j * x.get j) + beta * y.get i
        else y.get i⟩
  | Op.Trans =>
      ⟨y.n, fun j =>
        if j < A.n then
          if beta = 0 then alpha * ∑ i ∈ Finset.range A.m, A.get i j * x.get i
          else alpha * (∑ i ∈ Finset.range A.m, A.get i j * x.get i) + beta * y.get j
        else y.get j⟩
  | Op.ConjTrans =>
      ⟨y.n, fun j =>
        if j < A.n then
          if beta = 0 then alpha * ∑ i ∈ Finset.range A.m, star (A.get i j) * x.get i
          else alpha * (∑ i ∈ Finset.range A.m, star (A.get i j) * x.get i) + beta * y.get j
        else y.get j⟩

/-- Modelled from the spec: the Level-2 rank-1 update `ger`, `A := A +
alpha·x·y^H` over the `A.m × A.n` extent (§4.3, conjugating variant, the one
larf calls); entries outside the extent are untouched, and the view's
dimensions and write policy are preserved. The implementation is not under
src/. -/
def ger (alpha : R) (x y : VecView R) (A : MatView R) : MatView R :=
  ⟨A.m, A.n,
    fun i j =>
      if i < A.m ∧ j < A.n then A.get i j + alpha * x.get i * star (y.get j)
      else A.get i j,
    A.writable⟩

end blas

/-- The result of a `larf` call: the (possibly thrown) error, and the final
values of the three by-reference arguments `C`, `work` and `tau`. A thrown
error leaves all three as they were passed in. -/
structure LarfResult (R : Type) where
  err : Option Err
  C : MatView R
  work : VecView R
  tau : R

/-- The `larf` routine from src/include/lapack/larf.hpp: after validating
`side` and write access to `C`, it wraps `v` in the
`vector_that_starts_with_one` adapter and applies `H = I - tau·v·v^H` to `C`
through one `gemv` and one `ger` call. `side` is the character tag of the
`Side` enum (`Left = 'L'`, `Right = 'R'`); any other value fails
validation. -/
def larf (side : Char) (v : VecView R) (tau : R) (C : MatView R)
    (work : VecView R) : LarfResult R :=
  if side ≠ 'L' ∧ side ≠ 'R' then
    ⟨some Err.invalidArgument, C, work, tau⟩
  else if access_denied (write_policy C) then
    ⟨some Err.invalidArgument, C, work, tau⟩
  else
    let v2 := vector_that_starts_with_one.toVec ⟨v⟩
    if side = 'L' then
      let w := blas.gemv Op.ConjTrans 1 C v2 0 work
      ⟨none, blas.ger (-tau) v2 w C, w, tau⟩
    else
      let w := blas.gemv Op.NoTrans 1 C v2 0 work
      ⟨none, blas.ger (-tau) w v2 C, w, tau⟩

/-- Two successive `larf` calls with the same `side`, `v` and `tau`, the
second receiving the `C` and `work` left by the first. -/
def larf2 (side : Char) (v : VecView R) (tau : R) (C : MatView R)
    (work : VecView R) : LarfResult R :=
  let r := larf side v tau C work
  larf side v tau r.C r.work

/-- The `lassq` routine from src/include/lapack/lassq.hpp: an unimplemented
stub that unconditionally throws `std::exception` and never touches `scale`
or `sumsq`. -/
def lassq (n : ℕ) (X : ℕ → R) (incx : ℕ) (scale sumsq : R) :
    Except Err (R × R) :=
  Except.error Err.stdException

/-- `work := C^H·v` abbreviation: entry `j` of the gemv product computed by
`larf` on the left, with `v` adapted. -/
def Tv (C : MatView R) (v : VecView R) (j : ℕ) : R :=
  ∑ l ∈ Finset.range C.m, star (vOne v l) * C.get l j

/-- `work := C·v` abbreviation: entry `i` of the gemv product computed by
`larf` on the right, with `v` adapted. -/
def Uv (C : MatView R) (v : VecView R) (i : ℕ) : R :=
  ∑ l ∈ Finset.range C.n, C.get i l * vOne v l

/-- `v^H·v` for the adapted vector over its first `m` entries. -/
def Sv (v : VecView R) (m : ℕ) : R :=
  ∑ l ∈ Finset.range m, star (vOne v l) * vOne v l

/-- Element of `op(A)` at `(i, j)` for a raw (pointer-style) matrix. -/
def opEntry (op : Op) (A : ℕ → ℕ → R) (i j : ℕ) : R :=
  match op with
  | Op.NoTrans => A i j
  | Op.Trans => A j i
  | Op.ConjTrans => star (A j i)

/-- Whether `(i, j)` lies in the triangular half selected by `uplo`. -/
def triRef (uplo : Uplo) (i j : ℕ) : Bool :=
  match uplo with
  | Uplo.Upper => i ≤ j
  | Uplo.Lower => j ≤ i

/-- Logical element of a symmetric matrix stored in the `uplo` half. -/
def symAccess (uplo : Uplo) (A : ℕ → ℕ → R) (i j : ℕ) : R :=
  if triRef uplo i j then A i j else A j i

/-- Logical element of a Hermitian matrix stored in the `uplo` half. -/
def hermAccess (uplo : Uplo) (A : ℕ → ℕ → R) (i j : ℕ) : R :=
  if triRef uplo i j then A i j else star (A j i)

namespace blas

/-- The side tag of the `symm`/`hemm` kernels (the `blas::Side` enum):
whether the symmetric/Hermitian operand multiplies from the left or the
right. -/
inductive Side where
  | Left
  | Right
deriving DecidableEq

/-- Modelled from the spec: the Level-2 Hermitian `hemv` kernel, `y :=
alpha·A·x + beta·y` with `A` Hermitian of order `A.n` stored in the `uplo`
half (§4.3); `beta = 0` never reads the destination. The implementation is
not under src/. -/
def hemv (uplo : Uplo) (alpha : R) (A : MatView R) (x : VecView R) (beta : R)
    (y : VecView R) : VecView R :=
  ⟨y.n, fun i =>
    if i < A.n then
      if beta = 0 then alpha * ∑ j ∈ Finset.range A.n, hermAccess uplo A.get i j * x.get j
      else alpha * (∑ j ∈ Finset.range A.n, hermAccess uplo A.get i j * x.get j) + beta * y.get i
    else y.get i⟩

/-- Modelled from the spec: the Level-2 symmetric `symv` kernel, `y :=
alpha·A·x + beta·y` with `A` symmetric of order `A.n` stored in the `uplo`
half (§4.3); `beta = 0` never reads the destination. The implementation is
not under src/; only the corner-case tests reference it. -/
def symv (uplo : Uplo) (alpha : R) (A : MatView R) (x : VecView R) (beta : R)
    (y : VecView R) : VecView R :=
  ⟨y.n, fun i =>
    if i < A.n then
      if beta = 0 then alpha * ∑ j ∈ Finset.range A.n, symAccess uplo A.get i j * x.get j
      else alpha * (∑ j ∈ Finset.range A.n, symAccess uplo A.get i j * x.get j) + beta * y.get i
    else y.get i⟩

/-- Modelled from the spec: the Level-3 `gemm` kernel, `C :=
alpha·op(A)·op(B) + beta·C` on the `m × n` extent with reduction dimension
`k` (§4.4); `beta = 0` never reads `C`. The implementation is not under
src/; only the corner-case tests reference it. -/
def gemm (opA opB : Op) (m n k : ℕ) (alpha : R) (A B : ℕ → ℕ → R) (beta : R)
    (C : ℕ → ℕ → R) : ℕ → ℕ → R :=
  fun i j =>
    if i < m ∧ j < n then
      if beta = 0 then alpha * ∑ l ∈ Finset.range k, opEntry opA A i l * opEntry opB B l j
      else alpha * (∑ l ∈ Finset.range k, opEntry opA A i l * opEntry opB B l j) + beta * C i j
    else C i j

/-- Modelled from the spec: the Level-3 `symm` kernel, `C := alpha·A·B +
beta·C` for `side = Left` (A symmetric of order `m`) and `C := alpha·B·A +
beta·C` for `side = Right` (A symmetric of order `n`), with `A` stored in
the `uplo` half (§4.4); `beta = 0` never reads `C`. Not under src/. -/
def symm (side : Side) (uplo : Uplo) (m n : ℕ) (alpha : R) (A B : ℕ → ℕ → R)
    (beta : R) (C : ℕ → ℕ → R) : ℕ → ℕ → R :=
  fun i j =>
    if i < m ∧ j < n then
      let acc :=
        match side with
        | Side.Left => ∑ l ∈ Finset.range m, symAccess uplo A i l * B l j
        | Side.Right => ∑ l ∈ Finset.range n, B i l * symAccess uplo A l j
      if beta = 0 then alpha * acc else alpha * acc + beta * C i j
    else C i j

/-- Modelled from the spec: the Level-3 `hemm` kernel, `C := alpha·A·B +
beta·C` for `side = Left` (A Hermitian of order `m`) and `C := alpha·B·A +
beta·C` for `side = Right` (A Hermitian of order `n`), with `A` stored in
the `uplo` half (§4.4); `beta = 0` never reads `C`. Not under src/. -/
def hemm (side : Side) (uplo : Uplo) (m n : ℕ) (alpha : R) (A B : ℕ → ℕ → R)
    (beta : R) (C : ℕ → ℕ → R) : ℕ → ℕ → R :=
  fun i j =>
    if i < m ∧ j < n then
      let acc :=
        match side with
        | Side.Left => ∑ l ∈ Finset.range m, hermAccess uplo A i l * B l j
        | Side.Right => ∑ l ∈ Finset.range n, B i l * hermAccess uplo A l j
      if beta = 0 then alpha * acc else alpha * acc + beta * C i j
    else C i j

/-- Modelled from the spec: the Level-3 `syrk` kernel, `C := alpha·op(A)·
op(A)^T + beta·C` on the `uplo` half of the order-`n` result with reduction
dimension `k` (§4.4); entries outside the referenced half are untouched, and
`beta = 0` never reads `C`. Not under src/. -/
def syrk (uplo : Uplo) (trans : Op) (n k : ℕ) (alpha : R) (A : ℕ → ℕ → R)
    (beta : R) (C : ℕ → ℕ → R) : ℕ → ℕ → R :=
  fun i j =>
    if i < n ∧ j < n ∧ triRef uplo i j then
      if beta = 0 then alpha * ∑ l ∈ Finset.range k, opEntry trans A i l * opEntry trans A j l
      else alpha * (∑ l ∈ Finset.range k, opEntry trans A i l * opEntry trans A j l) + beta * C i j
    else C i j

/-- Modelled from the spec: the Level-3 `herk` kernel, `C := alpha·op(A)·
op(A)^H + beta·C` on the `uplo` half of the order-`n` result with reduction
dimension `k` (§4.4); entries outside the referenced half are untouched, and
`beta = 0` never reads `C`. The §4.4 forcing of the imaginary part of
diagonal entries concerns the complex instantiation and is not expressible
over the abstract ring `R`, which carries no real-part operation; the claims
below do not depend on it. Not under src/. -/
def herk (uplo : Uplo) (trans : Op) (n k : ℕ) (alpha : R) (A : ℕ → ℕ → R)
    (beta : R) (C : ℕ → ℕ → R) : ℕ → ℕ → R :=
  fun i j =>
    if i < n ∧ j < n ∧ triRef uplo i j then
      if beta = 0 then
        alpha * ∑ l ∈ Finset.range k, opEntry trans A i l * star (opEntry trans A j l)
      else
        alpha * (∑ l ∈ Finset.range k, opEntry trans A i l * star (opEntry trans A j l))
          + beta * C i j
    else C i j

/-- Modelled from the spec: the Level-3 `syr2k` kernel, `C := alpha·op(A)·
op(B)^T + alpha·op(B)·op(A)^T + beta·C` on the `uplo` half with reduction
dimension `k` (§4.4); `beta = 0` never reads `C`. Not under src/. -/
def syr2k (uplo : Uplo) (trans : Op) (n k : ℕ) (alpha : R) (A B : ℕ → ℕ → R)
    (beta : R) (C : ℕ → ℕ → R) : ℕ → ℕ → R :=
  fun i j =>
    if i < n ∧ j < n ∧ triRef uplo i j then
      let acc := alpha * (∑ l ∈ Finset.range k, opEntry trans A i l * opEntry trans B j l)
               + alpha * (∑ l ∈ Finset.range k, opEntry trans B i l * opEntry trans A j l)
      if beta = 0 then acc else acc + beta * C i j
    else C i j

/-- Modelled from the spec: the Level-3 `her2k` kernel, `C := alpha·op(A)·
op(B)^H + conj(alpha)·op(B)·op(A)^H + beta·C` on the `uplo` half with
reduction dimension `k` (§4.4); `beta = 0` never reads `C`. Not under
src/. -/
def her2k (uplo : Uplo) (trans : Op) (n k : ℕ) (alpha : R) (A B : ℕ → ℕ → R)
    (beta : R) (C : ℕ → ℕ → R) : ℕ → ℕ → R :=
  fun i j =>
    if i < n ∧ j < n ∧ triRef uplo i j then
      let acc := alpha * (∑ l ∈ Finset.range k, opEntry trans A i l * star (opEntry trans B j l))
               + star alpha * (∑ l ∈ Finset.range k, opEntry trans B i l * star (opEntry trans A j l))
      if beta = 0 then acc else acc + beta * C i j
    else C i j

end blas

end Defs

section Helpers

variable {R : Type} [CommRing R] [StarRing R] [DecidableEq R]

theorem toVec_get (v : VecView R) :
    (vector_that_starts_with_one.toVec ⟨v⟩).get = vOne v := rfl

theorem vOne_zero (v : VecView R) : vOne v 0 = 1 := rfl

theorem vOne_pos (v : VecView R) (i : ℕ) (hi : i ≠ 0) : vOne v i = v.get i := by
  simp [vOne, vector_that_starts_with_one.get, hi]

theorem larf_left_reduce (v : VecView R) (tau : R) (C : MatView R)
    (work : VecView R) (hW : C.writable = true) :
    larf 'L' v tau C work =
      ⟨none,
       blas.ger (-tau) (vector_that_starts_with_one.toVec ⟨v⟩)
         (blas.gemv Op.ConjTrans 1 C (vector_that_starts_with_one.toVec ⟨v⟩) 0 work) C,
       blas.gemv Op.ConjTrans 1 C (vector_that_starts_with_one.toVec ⟨v⟩) 0 work,
       tau⟩ := by
  unfold larf
  rw [if_neg (by decide : ¬('L' ≠ 'L' ∧ 'L' ≠ 'R'))]
  rw [show access_denied (write_policy C) = false by
        simp [access_denied, write_policy, hW]]
  rw [if_neg (by simp : ¬(false = true))]
  rw [if_pos rfl]

theorem larf_right_reduce (v : VecView R) (tau : R) (C : MatView R)
    (work : VecView R) (hW : C.writable = true) :
    larf 'R' v tau C work =
      ⟨none,
       blas.ger (-tau)
         (blas.gemv Op.NoTrans 1 C (vector_that_starts_with_one.toVec ⟨v⟩) 0 work)
         (vector_that_starts_with_one.toVec ⟨v⟩) C,
       blas.gemv Op.NoTrans 1 C (vector_that_starts_with_one.toVec ⟨v⟩) 0 work,
       tau⟩ := by
  unfold larf
  rw [if_neg (by decide : ¬('R' ≠ 'L' ∧ 'R' ≠ 'R'))]
  rw [show access_denied (write_policy C) = false by
        simp [access_denied, write_policy, hW]]
  rw [if_neg (by simp : ¬(false = true))]
  rw [if_neg (by decide : ¬('R' = 'L'))]

end Helpers

section EntryLemmas

variable {R : Type} [CommRing R] [StarRing R] [DecidableEq R]

theorem larf_left_err (v : VecView R) (tau : R) (C : MatView R)
    (work : VecView R) (hW : C.writable = true) :
    (larf 'L' v tau C work).err = none := by
  rw [larf_left_reduce v tau C work hW]

theorem larf_left_C_m (v : VecView R) (tau : R) (C : MatView R)
    (work : VecView R) (hW : C.writable = true) :
    (larf 'L' v tau C work).C.m = C.m := by
  rw [larf_left_reduce v tau C work hW]; rfl

theorem larf_left_C_n (v : VecView R) (tau : R) (C : MatView R)
    (work : VecView R) (hW : C.writable = true) :
    (larf 'L' v tau C work).C.n = C.n := by
  rw [larf_left_reduce v tau C work hW]; rfl

theorem larf_left_C_writable (v : VecView R) (tau : R) (C : MatView R)
    (work : VecView R) (hW : C.writable = true) :
    (larf 'L' v tau C work).C.writable = C.writable := by
  rw [larf_left_reduce v tau C work hW]; rfl

theorem larf_left_work_get (v : VecView R) (tau : R) (C : MatView R)
    (work : VecView R) (hW : C.writable = true) (j : ℕ) (hj : j < C.n) :
    (larf 'L' v tau C work).work.get j =
      ∑ i ∈ Finset.range C.m, star (C.get i j) * vOne v i := by
  rw [larf_left_reduce v tau C work hW]
  simp [blas.gemv, hj, toVec_get]

theorem larf_left_C_get (v : VecView R) (tau : R) (C : MatView R)
    (work : VecView R) (hW : C.writable = true) (i j : ℕ) :
    (larf 'L' v tau C work).C.get i j =
      if i < C.m ∧ j < C.n then C.get i j - tau * vOne v i * Tv C v j
      else C.get i j := by
  rw [larf_left_reduce v tau C work hW]
  show (blas.ger (-tau) (vector_that_starts_with_one.toVec ⟨v⟩)
      (blas.gemv Op.ConjTrans 1 C (vector_that_starts_with_one.toVec ⟨v⟩) 0 work) C).get i j = _
  simp only [blas.ger]
  by_cases h : i < C.m ∧ j < C.n
  · rw [if_pos h, if_pos h]
    simp only [blas.gemv, toVec_get]
    rw [if_pos h.2]
    simp only [if_true]
    simp only [one_mul, star_sum, star_mul, star_star, Tv, Finset.mul_sum]
    rw [sub_eq_add_neg, ← Finset.sum_neg_distrib]
    congr 1
    exact Finset.sum_congr rfl fun l _ => by ring
  · rw [if_neg h, if_neg h]

end EntryLemmas

section EntryLemmasRight

variable {R : Type} [CommRing R] [StarRing R] [DecidableEq R]

theorem larf_right_err (v : VecView R) (tau : R) (C : MatView R)
    (work : VecView R) (hW : C.writable = true) :
    (larf 'R' v tau C work).err = none := by
  rw [larf_right_reduce v tau C work hW]

theorem larf_right_C_m (v : VecView R) (tau : R) (C : MatView R)
    (work : VecView R) (hW : C.writable = true) :
    (larf 'R' v tau C work).C.m = C.m := by
  rw [larf_right_reduce v tau C work hW]; rfl

theorem larf_right_C_n (v : VecView R) (tau : R) (C : MatView R)
    (work : VecView R) (hW : C.writable = true) :
    (larf 'R' v tau C work).C.n = C.n := by
  rw [larf_right_reduce v tau C work hW]; rfl

theorem larf_right_C_writable (v : VecView R) (tau : R) (C : MatView R)
    (work : VecView R) (hW : C.writable = true) :
    (larf 'R' v tau C work).C.writable = C.writable := by
  rw [larf_right_reduce v tau C work hW]; rfl

theorem larf_right_work_get (v : VecView R) (tau : R) (C : MatView R)
    (work : VecView R) (hW : C.writable = true) (i : ℕ) (hi : i < C.m) :
    (larf 'R' v tau C work).work.get i =
      ∑ j ∈ Finset.range C.n, C.get i j * vOne v j := by
  rw [larf_right_reduce v tau C work hW]
  simp [blas.gemv, hi, toVec_get]

theorem larf_right_C_get (v : VecView R) (tau : R) (C : MatView R)
    (work : VecView R) (hW : C.writable = true) (i j : ℕ) :
    (larf 'R' v tau C work).C.get i j =
      if i < C.m ∧ j < C.n then C.get i j - tau * Uv C v i * star (vOne v j)
      else C.get i j := by
  rw [larf_right_reduce v tau C work hW]
  show (blas.ger (-tau)
      (blas.gemv Op.NoTrans 1 C (vector_that_starts_with_one.toVec ⟨v⟩) 0 work)
      (vector_that_starts_with_one.toVec ⟨v⟩) C).get i j = _
  simp only [blas.ger]
  by_cases h : i < C.m ∧ j < C.n
  · rw [if_pos h, if_pos h]
    simp only [blas.gemv, toVec_get]
    rw [if_pos h.1]
    simp only [if_true, one_mul, Uv]
    ring
  · rw [if_neg h, if_neg h]

end EntryLemmasRight

section RoundTripLemmas

variable {R : Type} [CommRing R] [StarRing R] [DecidableEq R]

theorem larf2_left_C_get (v : VecView R) (tau : R) (C : MatView R)
    (work : VecView R) (hW : C.writable = true) (i j : ℕ) :
    (larf2 'L' v tau C work).C.get i j =
      if i < C.m ∧ j < C.n then
        C.get i j - tau * (2 - tau * Sv v C.m) * vOne v i * Tv C v j
      else C.get i j := by
  have hW1 : (larf 'L' v tau C work).C.writable = true := by
    rw [larf_left_C_writable v tau C work hW]; exact hW
  show (larf 'L' v tau (larf 'L' v tau C work).C (larf 'L' v tau C work).work).C.get i j = _
  rw [larf_left_C_get v tau _ _ hW1 i j]
  rw [larf_left_C_m v tau C work hW, larf_left_C_n v tau C work hW]
  by_cases h : i < C.m ∧ j < C.n
  · rw [if_pos h, if_pos h]
    have hTv : Tv (larf 'L' v tau C work).C v j =
        Tv C v j - tau * Sv v C.m * Tv C v j := by
      unfold Tv Sv
      rw [larf_left_C_m v tau C work hW]
      calc ∑ l ∈ Finset.range C.m, star (vOne v l) * (larf 'L' v tau C work).C.get l j
          = ∑ l ∈ Finset.range C.m,
              (star (vOne v l) * C.get l j
                - tau * Tv C v j * (star (vOne v l) * vOne v l)) := by
            refine Finset.sum_congr rfl fun l hl => ?_
            rw [larf_left_C_get v tau C work hW l j,
              if_pos ⟨Finset.mem_range.mp hl, h.2⟩]
            ring
        _ = _ := by
            rw [Finset.sum_sub_distrib, ← Finset.mul_sum]
            unfold Tv
            ring
    rw [hTv]
    rw [larf_left_C_get v tau C work hW i j, if_pos h]
    ring
  · rw [if_neg h, if_neg h]
    rw [larf_left_C_get v tau C work hW i j, if_neg h]

theorem larf2_right_C_get (v : VecView R) (tau : R) (C : MatView R)
    (work : VecView R) (hW : C.writable = true) (i j : ℕ) :
    (larf2 'R' v tau C work).C.get i j =
      if i < C.m ∧ j < C.n then
        C.get i j - tau * (2 - tau * Sv v C.n) * Uv C v i * star (vOne v j)
      else C.get i j := by
  have hW1 : (larf 'R' v tau C work).C.writable = true := by
    rw [larf_right_C_writable v tau C work hW]; exact hW
  show (larf 'R' v tau (larf 'R' v tau C work).C (larf 'R' v tau C work).work).C.get i j = _
  rw [larf_right_C_get v tau _ _ hW1 i j]
  rw [larf_right_C_m v tau C work hW, larf_right_C_n v tau C work hW]
  by_cases h : i < C.m ∧ j < C.n
  · rw [if_pos h, if_pos h]
    have hUv : Uv (larf 'R' v tau C work).C v i =
        Uv C v i - tau * Uv C v i * Sv v C.n := by
      unfold Uv Sv
      rw [larf_right_C_n v tau C work hW]
      calc ∑ l ∈ Finset.range C.n, (larf 'R' v tau C work).C.get i l * vOne v l
          = ∑ l ∈ Finset.range C.n,
              (C.get i l * vOne v l
                - tau * Uv C v i * (star (vOne v l) * vOne v l)) := by
            refine Finset.sum_congr rfl fun l hl => ?_
            rw [larf_right_C_get v tau C work hW i l,
              if_pos ⟨h.1, Finset.mem_range.mp hl⟩]
            ring
        _ = _ := by
            rw [Finset.sum_sub_distrib, ← Finset.mul_sum]
            unfold Uv
            ring
    rw [hUv]
    rw [larf_right_C_get v tau C work hW i j, if_pos h]
    ring
  · rw [if_neg h, if_neg h]
    rw [larf_right_C_get v tau C work hW i j, if_neg h]

end RoundTripLemmas

section MoreHelpers

variable {R : Type} [CommRing R] [StarRing R] [DecidableEq R]

theorem MatView.eq_of_fields {C D : MatView R} (hm : C.m = D.m) (hn : C.n = D.n)
    (hg : C.get = D.get) (hw : C.writable = D.writable) : C = D := by
  cases C
  cases D
  simp_all

theorem larf2_left_C_m (v : VecView R) (tau : R) (C : MatView R)
    (work : VecView R) (hW : C.writable = true) :
    (larf2 'L' v tau C work).C.m = C.m := by
  have hW1 : (larf 'L' v tau C work).C.writable = true := by
    rw [larf_left_C_writable v tau C work hW]; exact hW
  show (larf 'L' v tau (larf 'L' v tau C work).C (larf 'L' v tau C work).work).C.m = C.m
  rw [larf_left_C_m _ _ _ _ hW1, larf_left_C_m _ _ _ _ hW]

theorem larf2_left_C_n (v : VecView R) (tau : R) (C : MatView R)
    (work : VecView R) (hW : C.writable = true) :
    (larf2 'L' v tau C work).C.n = C.n := by
  have hW1 : (larf 'L' v tau C work).C.writable = true := by
    rw [larf_left_C_writable v tau C work hW]; exact hW
  show (larf 'L' v tau (larf 'L' v tau C work).C (larf 'L' v tau C work).work).C.n = C.n
  rw [larf_left_C_n _ _ _ _ hW1, larf_left_C_n _ _ _ _ hW]

theorem larf2_left_C_writable (v : VecView R) (tau : R) (C : MatView R)
    (work : VecView R) (hW : C.writable = true) :
    (larf2 'L' v tau C work).C.writable = C.writable := by
  have hW1 : (larf 'L' v tau C work).C.writable = true := by
    rw [larf_left_C_writable v tau C work hW]; exact hW
  show (larf 'L' v tau (larf 'L' v tau C work).C
    (larf 'L' v tau C work).work).C.writable = C.writable
  rw [larf_left_C_writable _ _ _ _ hW1, larf_left_C_writable _ _ _ _ hW]

theorem larf2_right_C_m (v : VecView R) (tau : R) (C : MatView R)
    (work : VecView R) (hW : C.writable = true) :
    (larf2 'R' v tau C work).C.m = C.m := by
  have hW1 : (larf 'R' v tau C work).C.writable = true := by
    rw [larf_right_C_writable v tau C work hW]; exact hW
  show (larf 'R' v tau (larf 'R' v tau C work).C (larf 'R' v tau C work).work).C.m = C.m
  rw [larf_right_C_m _ _ _ _ hW1, larf_right_C_m _ _ _ _ hW]

theorem larf2_right_C_n (v : VecView R) (tau : R) (C : MatView R)
    (work : VecView R) (hW : C.writable = true) :
    (larf2 'R' v tau C work).C.n = C.n := by
  have hW1 : (larf 'R' v tau C work).C.writable = true := by
    rw [larf_right_C_writable v tau C work hW]; exact hW
  show (larf 'R' v tau (larf 'R' v tau C work).C (larf 'R' v tau C work).work).C.n = C.n
  rw [larf_right_C_n _ _ _ _ hW1, larf_right_C_n _ _ _ _ hW]

theorem larf2_right_C_writable (v : VecView R) (tau : R) (C : MatView R)
    (work : VecView R) (hW : C.writable = true) :
    (larf2 'R' v tau C work).C.writable = C.writable := by
  have hW1 : (larf 'R' v tau C work).C.writable = true := by
    rw [larf_right_C_writable v tau C work hW]; exact hW
  show (larf 'R' v tau (larf 'R' v tau C work).C
    (larf 'R' v tau C work).work).C.writable = C.writable
  rw [larf_right_C_writable _ _ _ _ hW1, larf_right_C_writable _ _ _ _ hW]

end MoreHelpers

section ClaimsAdapterStubFrame

variable {R : Type} [CommRing R] [StarRing R] [DecidableEq R]

/-- C2: the adapted view `vector_that_starts_with_one` reports exactly the
same length as the wrapped vector `v`; reading its element at index 0
returns the scalar unit 1 regardless of what `v` stores there, and reading
any index `i` with `1 ≤ i ≤ n - 1` returns `v[i]` unchanged. -/
theorem vector_that_starts_with_one_length_and_entries (v : VecView R) :
    vector_that_starts_with_one.size (vector_that_starts_with_one.mk v) = size v
  ∧ vector_that_starts_with_one.get (vector_that_starts_with_one.mk v) 0 = 1
  ∧ ∀ i : ℕ, 1 ≤ i → i ≤ size v - 1 →
      vector_that_starts_with_one.get (vector_that_starts_with_one.mk v) i = v.get i := by
  refine ⟨rfl, rfl, fun i h1 _ => ?_⟩
  simp [vector_that_starts_with_one.get, Nat.one_le_iff_ne_zero.mp h1]

/-- Witness for C2 at the concrete length-1 vector whose stored first entry
is 2: the adapter still reports length 1 and reads 1 at index 0. -/
theorem vector_that_starts_with_one_length_and_entries_witness :
    vector_that_starts_with_one.size
        (vector_that_starts_with_one.mk (VecView.mk 1 fun _ => (2 : ℤ)))
      = size (VecView.mk 1 fun _ => (2 : ℤ))
  ∧ vector_that_starts_with_one.get
        (vector_that_starts_with_one.mk (VecView.mk 1 fun _ => (2 : ℤ))) 0 = 1
  ∧ ∀ i : ℕ, 1 ≤ i → i ≤ size (VecView.mk 1 fun _ => (2 : ℤ)) - 1 →
      vector_that_starts_with_one.get
          (vector_that_starts_with_one.mk (VecView.mk 1 fun _ => (2 : ℤ))) i
        = (VecView.mk 1 fun _ => (2 : ℤ)).get i :=
  vector_that_starts_with_one_length_and_entries (VecView.mk 1 fun _ => (2 : ℤ))

/-- C6: sub-ranging an adapted view with a range starting at index 0 yields
another adapted view over the sub-ranged underlying vector (index 0 still
reads as 1, other indices read the shifted underlying entries); a sub-range
starting at a nonzero index yields a plain sub-view of the underlying vector
with no index-0 override (every index, 0 included, reads the shifted
underlying entry). -/
theorem subvector_adapted_view_cases (w : vector_that_starts_with_one R)
    (rows : SliceSpec) :
    (rows.first = 0 →
       vector_that_starts_with_one.subvector w rows
           = SubvecResult.adapted ⟨subvector w.v_ rows⟩
       ∧ (vector_that_starts_with_one.subvector w rows).read 0 = 1
       ∧ ∀ i : ℕ, i ≠ 0 →
           (vector_that_starts_with_one.subvector w rows).read i
             = w.v_.get (rows.first + i))
  ∧ (rows.first ≠ 0 →
       vector_that_starts_with_one.subvector w rows
           = SubvecResult.plain (subvector w.v_ rows)
       ∧ ∀ i : ℕ,
           (vector_that_starts_with_one.subvector w rows).read i
             = w.v_.get (rows.first + i)) := by
  constructor
  · intro h0
    have hred : vector_that_starts_with_one.subvector w rows
        = SubvecResult.adapted ⟨subvectorPlain w.v_ rows⟩ := by
      unfold vector_that_starts_with_one.subvector
      rw [if_pos h0]
    refine ⟨hred, ?_, fun i hi => ?_⟩
    · rw [hred]; rfl
    · rw [hred]
      show vector_that_starts_with_one.get ⟨subvectorPlain w.v_ rows⟩ i = _
      simp [vector_that_starts_with_one.get, hi, subvectorPlain, subvector]
  · intro h0
    have hred : vector_that_starts_with_one.subvector w rows
        = SubvecResult.plain (subvectorPlain w.v_ rows) := by
      unfold vector_that_starts_with_one.subvector
      rw [if_neg h0]
    refine ⟨hred, fun i => ?_⟩
    rw [hred]
    rfl

/-- Witness for C6 at a concrete adapted view over a length-4 vector: the
slice [0,2) stays adapted, the slice [1,3) degrades to a plain view. -/
theorem subvector_adapted_view_cases_witness :
    ((SliceSpec.mk 0 2).first = 0 →
       vector_that_starts_with_one.subvector
           (vector_that_starts_with_one.mk (VecView.mk 4 fun i => (i : ℤ) + 5))
           (SliceSpec.mk 0 2)
           = SubvecResult.adapted
               ⟨subvector (VecView.mk 4 fun i => (i : ℤ) + 5) (SliceSpec.mk 0 2)⟩
       ∧ (vector_that_starts_with_one.subvector
             (vector_that_starts_with_one.mk (VecView.mk 4 fun i => (i : ℤ) + 5))
             (SliceSpec.mk 0 2)).read 0 = 1
       ∧ ∀ i : ℕ, i ≠ 0 →
           (vector_that_starts_with_one.subvector
               (vector_that_starts_with_one.mk (VecView.mk 4 fun i => (i : ℤ) + 5))
               (SliceSpec.mk 0 2)).read i
             = (VecView.mk 4 fun i => (i : ℤ) + 5).get ((SliceSpec.mk 0 2).first + i))
  ∧ ((SliceSpec.mk 0 2).first ≠ 0 →
       vector_that_starts_with_one.subvector
           (vector_that_starts_with_one.mk (VecView.mk 4 fun i => (i : ℤ) + 5))
           (SliceSpec.mk 0 2)
           = SubvecResult.plain
               (subvector (VecView.mk 4 fun i => (i : ℤ) + 5) (SliceSpec.mk 0 2))
       ∧ ∀ i : ℕ,
           (vector_that_starts_with_one.subvector
               (vector_that_starts_with_one.mk (VecView.mk 4 fun i => (i : ℤ) + 5))
               (SliceSpec.mk 0 2)).read i
             = (VecView.mk 4 fun i => (i : ℤ) + 5).get ((SliceSpec.mk 0 2).first + i)) :=
  subvector_adapted_view_cases
    (vector_that_starts_with_one.mk (VecView.mk 4 fun i => (i : ℤ) + 5))
    (SliceSpec.mk 0 2)

/-- C7: lassq raises unconditionally for every input, performing no
computation: it is an unimplemented stub. -/
theorem lassq_always_raises (n : ℕ) (X : ℕ → R) (incx : ℕ) (scale sumsq : R) :
    lassq n X incx scale sumsq = Except.error Err.stdException := rfl

/-- C10: larf receives tau by non-const reference but never writes it: every
normally returning call leaves tau equal to its pre-call value. -/
theorem larf_preserves_tau (side : Char) (v : VecView R) (tau : R)
    (C : MatView R) (work : VecView R)
    (h : (larf side v tau C work).err = none) :
    (larf side v tau C work).tau = tau := by
  clear h
  unfold larf
  split_ifs <;> rfl

/-- Witness for C10 at a concrete normally-returning call with tau = 2. -/
theorem larf_preserves_tau_witness :
    (larf 'L' (VecView.mk 1 fun _ => (3 : ℤ)) 2
        (MatView.mk 1 1 (fun _ _ => 1) true) (VecView.mk 1 fun _ => 0)).err = none
  ∧ (larf 'L' (VecView.mk 1 fun _ => (3 : ℤ)) 2
        (MatView.mk 1 1 (fun _ _ => 1) true) (VecView.mk 1 fun _ => 0)).tau = 2 :=
  ⟨by decide, larf_preserves_tau 'L' (VecView.mk 1 fun _ => (3 : ℤ)) 2
      (MatView.mk 1 1 (fun _ _ => 1) true) (VecView.mk 1 fun _ => 0) (by decide)⟩

/-- C4: larf signals the recoverable InvalidArgument failure when side is
neither Left nor Right, and when dense write access to C is denied; in both
cases it fails before touching its operands, returning C, work and tau
exactly as passed in. -/
theorem larf_invalid_argument_checks (side : Char) (v : VecView R) (tau : R)
    (C : MatView R) (work : VecView R) :
    (side ≠ 'L' ∧ side ≠ 'R' →
       larf side v tau C work = ⟨some Err.invalidArgument, C, work, tau⟩)
  ∧ (access_denied (write_policy C) = true →
       larf side v tau C work = ⟨some Err.invalidArgument, C, work, tau⟩) := by
  constructor
  · intro h
    unfold larf
    rw [if_pos h]
  · intro h
    unfold larf
    by_cases hs : side ≠ 'L' ∧ side ≠ 'R'
    · rw [if_pos hs]
    · rw [if_neg hs, if_pos h]

/-- Witness for C4 at side = 'X' and a matrix view whose write policy denies
dense write access. -/
theorem larf_invalid_argument_checks_witness :
    (('X' : Char) ≠ 'L' ∧ ('X' : Char) ≠ 'R')
  ∧ access_denied (write_policy (MatView.mk 1 1 (fun _ _ => (1 : ℤ)) false)) = true
  ∧ ((('X' : Char) ≠ 'L' ∧ ('X' : Char) ≠ 'R' →
       larf 'X' (VecView.mk 1 fun _ => (0 : ℤ)) 0
           (MatView.mk 1 1 (fun _ _ => 1) false) (VecView.mk 1 fun _ => 0)
         = ⟨some Err.invalidArgument, MatView.mk 1 1 (fun _ _ => 1) false,
            VecView.mk 1 fun _ => 0, 0⟩)
     ∧ (access_denied (write_policy (MatView.mk 1 1 (fun _ _ => (1 : ℤ)) false)) = true →
       larf 'X' (VecView.mk 1 fun _ => (0 : ℤ)) 0
           (MatView.mk 1 1 (fun _ _ => 1) false) (VecView.mk 1 fun _ => 0)
         = ⟨some Err.invalidArgument, MatView.mk 1 1 (fun _ _ => 1) false,
            VecView.mk 1 fun _ => 0, 0⟩)) :=
  ⟨by decide, by decide,
   larf_invalid_argument_checks 'X' (VecView.mk 1 fun _ => (0 : ℤ)) 0
     (MatView.mk 1 1 (fun _ _ => 1) false) (VecView.mk 1 fun _ => 0)⟩

end ClaimsAdapterStubFrame

section ClaimsLarfCore

variable {R : Type} [CommRing R] [StarRing R] [DecidableEq R]

/-- C1: with side Left, larf first computes work := C^H·v2 (the gemv call
with op ConjTrans, alpha 1, beta 0, v2 the adapted view of v) and then
updates C := C − tau·v2·work^H (the ger call with scalar −tau); with side
Right it first computes work := C·v2 (gemv, op NoTrans) and then updates
C := C − tau·work·v2^H. Stated entrywise over the m × n extent of C. -/
theorem larf_gemv_ger_composition (v : VecView R) (tau : R) (C : MatView R)
    (work : VecView R) (hW : C.writable = true) :
    ((larf 'L' v tau C work).err = none
      ∧ (∀ j, j < C.n → (larf 'L' v tau C work).work.get j
            = ∑ i ∈ Finset.range C.m, star (C.get i j) * vOne v i)
      ∧ (∀ i j, i < C.m → j < C.n → (larf 'L' v tau C work).C.get i j
            = C.get i j
              - tau * vOne v i * star ((larf 'L' v tau C work).work.get j)))
  ∧ ((larf 'R' v tau C work).err = none
      ∧ (∀ i, i < C.m → (larf 'R' v tau C work).work.get i
            = ∑ j ∈ Finset.range C.n, C.get i j * vOne v j)
      ∧ (∀ i j, i < C.m → j < C.n → (larf 'R' v tau C work).C.get i j
            = C.get i j
              - tau * (larf 'R' v tau C work).work.get i * star (vOne v j))) := by
  refine ⟨⟨larf_left_err v tau C work hW,
           fun j hj => larf_left_work_get v tau C work hW j hj,
           fun i j hi hj => ?_⟩,
          ⟨larf_right_err v tau C work hW,
           fun i hi => larf_right_work_get v tau C work hW i hi,
           fun i j hi hj => ?_⟩⟩
  · rw [larf_left_C_get v tau C work hW i j, if_pos ⟨hi, hj⟩,
      larf_left_work_get v tau C work hW j hj]
    have hst : star (∑ l ∈ Finset.range C.m, star (C.get l j) * vOne v l)
        = Tv C v j := by
      simp only [star_sum, star_mul, star_star, Tv]
    rw [hst]
  · rw [larf_right_C_get v tau C work hW i j, if_pos ⟨hi, hj⟩,
      larf_right_work_get v tau C work hW i hi]
    rfl

/-- Witness for C1 at a concrete 1×1 matrix, tau = 2. -/
theorem larf_gemv_ger_composition_witness :
    (MatView.mk 1 1 (fun _ _ => (1 : ℤ)) true).writable = true
  ∧ (((larf 'L' (VecView.mk 1 fun _ => (3 : ℤ)) 2
          (MatView.mk 1 1 (fun _ _ => 1) true) (VecView.mk 1 fun _ => 0)).err = none
      ∧ (∀ j, j < (MatView.mk 1 1 (fun _ _ => (1 : ℤ)) true).n →
          (larf 'L' (VecView.mk 1 fun _ => (3 : ℤ)) 2
              (MatView.mk 1 1 (fun _ _ => 1) true) (VecView.mk 1 fun _ => 0)).work.get j
            = ∑ i ∈ Finset.range (MatView.mk 1 1 (fun _ _ => (1 : ℤ)) true).m,
                star ((MatView.mk 1 1 (fun _ _ => (1 : ℤ)) true).get i j)
                  * vOne (VecView.mk 1 fun _ => (3 : ℤ)) i)
      ∧ (∀ i j, i < (MatView.mk 1 1 (fun _ _ => (1 : ℤ)) true).m →
            j < (MatView.mk 1 1 (fun _ _ => (1 : ℤ)) true).n →
          (larf 'L' (VecView.mk 1 fun _ => (3 : ℤ)) 2
              (MatView.mk 1 1 (fun _ _ => 1) true) (VecView.mk 1 fun _ => 0)).C.get i j
            = (MatView.mk 1 1 (fun _ _ => (1 : ℤ)) true).get i j
              - 2 * vOne (VecView.mk 1 fun _ => (3 : ℤ)) i
                  * star ((larf 'L' (VecView.mk 1 fun _ => (3 : ℤ)) 2
                      (MatView.mk 1 1 (fun _ _ => 1) true)
                      (VecView.mk 1 fun _ => 0)).work.get j)))
    ∧ ((larf 'R' (VecView.mk 1 fun _ => (3 : ℤ)) 2
          (MatView.mk 1 1 (fun _ _ => 1) true) (VecView.mk 1 fun _ => 0)).err = none
      ∧ (∀ i, i < (MatView.mk 1 1 (fun _ _ => (1 : ℤ)) true).m →
          (larf 'R' (VecView.mk 1 fun _ => (3 : ℤ)) 2
              (MatView.mk 1 1 (fun _ _ => 1) true) (VecView.mk 1 fun _ => 0)).work.get i
            = ∑ j ∈ Finset.range (MatView.mk 1 1 (fun _ _ => (1 : ℤ)) true).n,
                (MatView.mk 1 1 (fun _ _ => (1 : ℤ)) true).get i j
                  * vOne (VecView.mk 1 fun _ => (3 : ℤ)) j)
      ∧ (∀ i j, i < (MatView.mk 1 1 (fun _ _ => (1 : ℤ)) true).m →
            j < (MatView.mk 1 1 (fun _ _ => (1 : ℤ)) true).n →
          (larf 'R' (VecView.mk 1 fun _ => (3 : ℤ)) 2
              (MatView.mk 1 1 (fun _ _ => 1) true) (VecView.mk 1 fun _ => 0)).C.get i j
            = (MatView.mk 1 1 (fun _ _ => (1 : ℤ)) true).get i j
              - 2 * (larf 'R' (VecView.mk 1 fun _ => (3 : ℤ)) 2
                    (MatView.mk 1 1 (fun _ _ => 1) true)
                    (VecView.mk 1 fun _ => 0)).work.get i
                  * star (vOne (VecView.mk 1 fun _ => (3 : ℤ)) j)))) :=
  ⟨rfl, larf_gemv_ger_composition (VecView.mk 1 fun _ => (3 : ℤ)) 2
      (MatView.mk 1 1 (fun _ _ => 1) true) (VecView.mk 1 fun _ => 0) rfl⟩

/-- C3: with tau = 0 larf takes no short-circuit path: it still executes the
gemv into work (whose result is returned in work) followed by the ger on C,
and the resulting C equals its pre-call contents exactly. -/
theorem larf_tau_zero_identity (side : Char) (v : VecView R) (C : MatView R)
    (work : VecView R) (hside : side = 'L' ∨ side = 'R')
    (hW : C.writable = true) :
    (larf side v 0 C work).err = none
  ∧ (larf side v 0 C work).C = C
  ∧ (larf side v 0 C work).work =
      blas.gemv (if side = 'L' then Op.ConjTrans else Op.NoTrans) 1 C
        (vector_that_starts_with_one.toVec ⟨v⟩) 0 work := by
  rcases hside with h | h <;> subst h
  · refine ⟨larf_left_err v 0 C work hW, ?_, ?_⟩
    · refine MatView.eq_of_fields (larf_left_C_m v 0 C work hW)
        (larf_left_C_n v 0 C work hW) ?_ (larf_left_C_writable v 0 C work hW)
      funext i j
      rw [larf_left_C_get v 0 C work hW i j]
      by_cases h : i < C.m ∧ j < C.n
      · rw [if_pos h]; ring
      · rw [if_neg h]
    · rw [larf_left_reduce v 0 C work hW, if_pos rfl]
  · refine ⟨larf_right_err v 0 C work hW, ?_, ?_⟩
    · refine MatView.eq_of_fields (larf_right_C_m v 0 C work hW)
        (larf_right_C_n v 0 C work hW) ?_ (larf_right_C_writable v 0 C work hW)
      funext i j
      rw [larf_right_C_get v 0 C work hW i j]
      by_cases h : i < C.m ∧ j < C.n
      · rw [if_pos h]; ring
      · rw [if_neg h]
    · rw [larf_right_reduce v 0 C work hW,
        if_neg (by decide : ¬('R' : Char) = 'L')]

/-- Witness for C3 at a concrete 1×1 matrix with side Left. -/
theorem larf_tau_zero_identity_witness :
    (('L' : Char) = 'L' ∨ ('L' : Char) = 'R')
  ∧ (MatView.mk 1 1 (fun _ _ => (1 : ℤ)) true).writable = true
  ∧ ((larf 'L' (VecView.mk 1 fun _ => (3 : ℤ)) 0
        (MatView.mk 1 1 (fun _ _ => 1) true) (VecView.mk 1 fun _ => 0)).err = none
    ∧ (larf 'L' (VecView.mk 1 fun _ => (3 : ℤ)) 0
        (MatView.mk 1 1 (fun _ _ => 1) true) (VecView.mk 1 fun _ => 0)).C
        = MatView.mk 1 1 (fun _ _ => 1) true
    ∧ (larf 'L' (VecView.mk 1 fun _ => (3 : ℤ)) 0
        (MatView.mk 1 1 (fun _ _ => 1) true) (VecView.mk 1 fun _ => 0)).work =
        blas.gemv (if ('L' : Char) = 'L' then Op.ConjTrans else Op.NoTrans) 1
          (MatView.mk 1 1 (fun _ _ => 1) true)
          (vector_that_starts_with_one.toVec ⟨VecView.mk 1 fun _ => (3 : ℤ)⟩)
          0 (VecView.mk 1 fun _ => 0)) :=
  ⟨Or.inl rfl, rfl, larf_tau_zero_identity 'L' (VecView.mk 1 fun _ => (3 : ℤ))
      (MatView.mk 1 1 (fun _ _ => 1) true) (VecView.mk 1 fun _ => 0)
      (Or.inl rfl) rfl⟩

end ClaimsLarfCore

section ClaimRoundTrip

variable {R : Type} [CommRing R] [StarRing R] [DecidableEq R]

/-- C5 as stated is false on the code: with tau = 0 the double application
returns the concrete 1×1 all-ones C to its original value although
tau·(v^H v) = 0 ≠ 2. -/
theorem larf_roundtrip_claim_counterexample :
    (larf2 'L' (VecView.mk 1 fun _ => (3 : ℤ)) 0
        (MatView.mk 1 1 (fun _ _ => 1) true) (VecView.mk 1 fun _ => 0)).C
      = MatView.mk 1 1 (fun _ _ => 1) true
  ∧ (0 : ℤ) * Sv (VecView.mk 1 fun _ => (3 : ℤ)) 1 ≠ 2 := by
  constructor
  · refine MatView.eq_of_fields
      (larf2_left_C_m (VecView.mk 1 fun _ => (3 : ℤ)) 0 _ _ rfl)
      (larf2_left_C_n (VecView.mk 1 fun _ => (3 : ℤ)) 0 _ _ rfl) ?_
      (larf2_left_C_writable (VecView.mk 1 fun _ => (3 : ℤ)) 0 _ _ rfl)
    funext i j
    rw [larf2_left_C_get (VecView.mk 1 fun _ => (3 : ℤ)) 0
      (MatView.mk 1 1 (fun _ _ => 1) true) (VecView.mk 1 fun _ => 0) rfl i j]
    by_cases h : i < (MatView.mk 1 1 (fun _ _ => (1 : ℤ)) true).m
        ∧ j < (MatView.mk 1 1 (fun _ _ => (1 : ℤ)) true).n
    · rw [if_pos h]; ring
    · rw [if_neg h]
  · decide

/-- C5 (amended): with positive dimensions, a double larf application with
the same side, v and tau returns EVERY writable matrix C of those dimensions
to its original value if and only if tau = 0 or tau·(v^H v) = 2 (v adapted,
over length m for side Left and n for side Right). The original claim must
add the tau = 0 disjunct and quantify over all C: single matrices (and
tau = 0 in particular) can round-trip even when tau·(v^H v) ≠ 2. -/
theorem larf_roundtrip_involution_iff [NoZeroDivisors R]
    (side : Char) (m n : ℕ) (v : VecView R) (tau : R)
    (hside : side = 'L' ∨ side = 'R') (hm : 0 < m) (hn : 0 < n) :
    (∀ C : MatView R, ∀ work : VecView R,
        C.m = m → C.n = n → C.writable = true →
        (larf2 side v tau C work).C = C)
  ↔ (tau = 0 ∨ tau * Sv v (if side = 'L' then m else n) = 2) := by
  rcases hside with h | h <;> subst h
  · rw [if_pos rfl]
    constructor
    · intro hall
      have hC := hall ⟨m, n, fun i j => if i = 0 ∧ j = 0 then 1 else 0, true⟩
        ⟨n, fun _ => 0⟩ rfl rfl rfl
      have hentry := congrArg (fun M : MatView R => M.get 0 0) hC
      simp only at hentry
      rw [larf2_left_C_get v tau _ _ rfl 0 0] at hentry
      rw [if_pos ⟨hm, hn⟩] at hentry
      have hTv : Tv (⟨m, n, fun i j => if i = 0 ∧ j = 0 then 1 else 0,
          true⟩ : MatView R) v 0 = 1 := by
        have hterm : ∀ l ∈ Finset.range m,
            star (vOne v l) * (⟨m, n, fun i j => if i = 0 ∧ j = 0 then 1 else 0,
              true⟩ : MatView R).get l 0 = if l = 0 then (1 : R) else 0 := by
          intro l _
          by_cases hl : l = 0
          · subst hl; simp [vOne_zero]
          · simp [hl]
        unfold Tv
        rw [Finset.sum_congr rfl hterm]
        rw [Finset.sum_ite_eq' (Finset.range m) 0 fun _ => (1 : R)]
        rw [if_pos (Finset.mem_range.mpr hm)]
      rw [hTv, vOne_zero, mul_one, mul_one] at hentry
      have h0 : tau * (2 - tau * Sv v m) = 0 := sub_eq_self.mp hentry
      rcases mul_eq_zero.mp h0 with ht | h2
      · exact Or.inl ht
      · exact Or.inr (sub_eq_zero.mp h2).symm
    · intro hd C work hCm hCn hCw
      have hz : tau * (2 - tau * Sv v m) = 0 := by
        rcases hd with h0 | h2
        · rw [h0]; ring
        · rw [h2]; ring
      refine MatView.eq_of_fields (larf2_left_C_m v tau C work hCw)
        (larf2_left_C_n v tau C work hCw) ?_
        (larf2_left_C_writable v tau C work hCw)
      funext i j
      rw [larf2_left_C_get v tau C work hCw i j]
      by_cases h : i < C.m ∧ j < C.n
      · rw [if_pos h, hCm]
        rw [show tau * (2 - tau * Sv v m) * vOne v i * Tv C v j
            = tau * (2 - tau * Sv v m) * (vOne v i * Tv C v j) by ring]
        rw [hz, zero_mul, sub_zero]
      · rw [if_neg h]
  · rw [if_neg (by decide : ¬('R' : Char) = 'L')]
    constructor
    · intro hall
      have hC := hall ⟨m, n, fun i j => if i = 0 ∧ j = 0 then 1 else 0, true⟩
        ⟨m, fun _ => 0⟩ rfl rfl rfl
      have hentry := congrArg (fun M : MatView R => M.get 0 0) hC
      simp only at hentry
      rw [larf2_right_C_get v tau _ _ rfl 0 0] at hentry
      rw [if_pos ⟨hm, hn⟩] at hentry
      have hUv : Uv (⟨m, n, fun i j => if i = 0 ∧ j = 0 then 1 else 0,
          true⟩ : MatView R) v 0 = 1 := by
        have hterm : ∀ l ∈ Finset.range n,
            (⟨m, n, fun i j => if i = 0 ∧ j = 0 then 1 else 0,
              true⟩ : MatView R).get 0 l * vOne v l = if l = 0 then (1 : R) else 0 := by
          intro l _
          by_cases hl : l = 0
          · subst hl; simp [vOne_zero]
          · simp [hl]
        unfold Uv
        rw [Finset.sum_congr rfl hterm]
        rw [Finset.sum_ite_eq' (Finset.range n) 0 fun _ => (1 : R)]
        rw [if_pos (Finset.mem_range.mpr hn)]
      rw [hUv, vOne_zero, star_one, mul_one, mul_one] at hentry
      have h0 : tau * (2 - tau * Sv v n) = 0 := sub_eq_self.mp hentry
      rcases mul_eq_zero.mp h0 with ht | h2
      · exact Or.inl ht
      · exact Or.inr (sub_eq_zero.mp h2).symm
    · intro hd C work hCm hCn hCw
      have hz : tau * (2 - tau * Sv v n) = 0 := by
        rcases hd with h0 | h2
        · rw [h0]; ring
        · rw [h2]; ring
      refine MatView.eq_of_fields (larf2_right_C_m v tau C work hCw)
        (larf2_right_C_n v tau C work hCw) ?_
        (larf2_right_C_writable v tau C work hCw)
      funext i j
      rw [larf2_right_C_get v tau C work hCw i j]
      by_cases h : i < C.m ∧ j < C.n
      · rw [if_pos h, hCn]
        rw [show tau * (2 - tau * Sv v n) * Uv C v i * star (vOne v j)
            = tau * (2 - tau * Sv v n) * (Uv C v i * star (vOne v j)) by ring]
        rw [hz, zero_mul, sub_zero]
      · rw [if_neg h]

/-- Witness for the amended C5 at side Left, m = n = 1, tau = 2 and the
length-1 vector with stored entry 3 (so tau·(v^H v) = 2 holds). -/
theorem larf_roundtrip_involution_iff_witness :
    (('L' : Char) = 'L' ∨ ('L' : Char) = 'R') ∧ 0 < 1 ∧
    ((∀ C : MatView ℤ, ∀ work : VecView ℤ,
        C.m = 1 → C.n = 1 → C.writable = true →
        (larf2 'L' (VecView.mk 1 fun _ => (3 : ℤ)) 2 C work).C = C)
      ↔ ((2 : ℤ) = 0 ∨
          2 * Sv (VecView.mk 1 fun _ => (3 : ℤ))
              (if ('L' : Char) = 'L' then 1 else 1) = 2)) :=
  ⟨Or.inl rfl, by decide,
   larf_roundtrip_involution_iff 'L' 1 1 (VecView.mk 1 fun _ => (3 : ℤ)) 2
     (Or.inl rfl) (by decide) (by decide)⟩

end ClaimRoundTrip

section ClaimsLevel3

variable {R : Type} [CommRing R] [StarRing R] [DecidableEq R]

/-- C8 as stated is false: herk with k = 0, n = 2 > 0 and beta = 2 on an
all-ones C scales only the referenced (Upper) triangle; the unreferenced
element C[1,0] stays 1 instead of being scaled to 2·1 = 2. -/
theorem level3_k_zero_scaling_counterexample :
    blas.herk Uplo.Upper Op.NoTrans 2 0 (1 : ℤ) (fun _ _ => 1) 2
        (fun _ _ => 1) 1 0 = 1
  ∧ (2 : ℤ) * 1 = 2
  ∧ blas.herk Uplo.Upper Op.NoTrans 2 0 (1 : ℤ) (fun _ _ => 1) 2
        (fun _ _ => 1) 1 0 ≠ 2 := by
  refine ⟨by decide, by decide, by decide⟩

/-- C8 (amended): the Level-3 kernels that take a reduction dimension k
(gemm, syrk, herk, syr2k, her2k; symm and hemm take no k argument) called
with k = 0 produce exactly C := beta·C on the referenced part of C — the
full m×n extent for gemm, the uplo triangle of the n×n extent for the rank-k
updates — and leave every other element untouched; the result reads no
element of A or B (the equations hold for all A, B). In particular beta = 2
doubles every referenced element and beta = 1 leaves C unchanged. -/
theorem level3_k_zero_beta_scaling (opA opB trans : Op) (uplo : Uplo)
    (m n : ℕ) (alpha beta : R) (A B C : ℕ → ℕ → R) :
    (∀ i j, blas.gemm opA opB m n 0 alpha A B beta C i j
        = if i < m ∧ j < n then beta * C i j else C i j)
  ∧ (∀ i j, blas.syrk uplo trans n 0 alpha A beta C i j
        = if i < n ∧ j < n ∧ triRef uplo i j then beta * C i j else C i j)
  ∧ (∀ i j, blas.herk uplo trans n 0 alpha A beta C i j
        = if i < n ∧ j < n ∧ triRef uplo i j then beta * C i j else C i j)
  ∧ (∀ i j, blas.syr2k uplo trans n 0 alpha A B beta C i j
        = if i < n ∧ j < n ∧ triRef uplo i j then beta * C i j else C i j)
  ∧ (∀ i j, blas.her2k uplo trans n 0 alpha A B beta C i j
        = if i < n ∧ j < n ∧ triRef uplo i j then beta * C i j else C i j) := by
  refine ⟨fun i j => ?_, fun i j => ?_, fun i j => ?_, fun i j => ?_,
    fun i j => ?_⟩
  · by_cases h : i < m ∧ j < n
    · by_cases hb : beta = 0 <;> simp [blas.gemm, h, hb]
    · simp [blas.gemm, h]
  · by_cases h : i < n ∧ j < n ∧ triRef uplo i j
    · by_cases hb : beta = 0 <;> simp [blas.syrk, h, hb]
    · simp [blas.syrk, h]
  · by_cases h : i < n ∧ j < n ∧ triRef uplo i j
    · by_cases hb : beta = 0 <;> simp [blas.herk, h, hb]
    · simp [blas.herk, h]
  · by_cases h : i < n ∧ j < n ∧ triRef uplo i j
    · by_cases hb : beta = 0 <;> simp [blas.syr2k, h, hb]
    · simp [blas.syr2k, h]
  · by_cases h : i < n ∧ j < n ∧ triRef uplo i j
    · by_cases hb : beta = 0 <;> simp [blas.her2k, h, hb]
    · simp [blas.her2k, h]

/-- C9: every beta-taking Level-2/Level-3 kernel of the corpus (gemv in all
three transpose modes, hemv, symv, gemm, symm and hemm on both sides, syrk,
herk, syr2k, her2k) called with beta = 0 and positive dimensions never reads
its destination: on the written extent the result is independent of the
destination's pre-call contents (two runs with different initial
destinations agree pointwise). -/
theorem beta_zero_destination_independence (alpha : R) (A2 : MatView R)
    (x : VecView R) (uplo : Uplo) (opA opB trans : Op) (m n k : ℕ)
    (A B : ℕ → ℕ → R) :
    (∀ y z : VecView R, ∀ i, i < A2.m →
        (blas.gemv Op.NoTrans alpha A2 x 0 y).get i
          = (blas.gemv Op.NoTrans alpha A2 x 0 z).get i)
  ∧ (∀ y z : VecView R, ∀ j, j < A2.n →
        (blas.gemv Op.Trans alpha A2 x 0 y).get j
          = (blas.gemv Op.Trans alpha A2 x 0 z).get j)
  ∧ (∀ y z : VecView R, ∀ j, j < A2.n →
        (blas.gemv Op.ConjTrans alpha A2 x 0 y).get j
          = (blas.gemv Op.ConjTrans alpha A2 x 0 z).get j)
  ∧ (∀ y z : VecView R, ∀ i, i < A2.n →
        (blas.hemv uplo alpha A2 x 0 y).get i
          = (blas.hemv uplo alpha A2 x 0 z).get i)
  ∧ (∀ y z : VecView R, ∀ i, i < A2.n →
        (blas.symv uplo alpha A2 x 0 y).get i
          = (blas.symv uplo alpha A2 x 0 z).get i)
  ∧ (∀ C D : ℕ → ℕ → R, ∀ i j, i < m → j < n →
        blas.gemm opA opB m n k alpha A B 0 C i j
          = blas.gemm opA opB m n k alpha A B 0 D i j)
  ∧ (∀ sd : blas.Side, ∀ C D : ℕ → ℕ → R, ∀ i j, i < m → j < n →
        blas.symm sd uplo m n alpha A B 0 C i j
          = blas.symm sd uplo m n alpha A B 0 D i j)
  ∧ (∀ sd : blas.Side, ∀ C D : ℕ → ℕ → R, ∀ i j, i < m → j < n →
        blas.hemm sd uplo m n alpha A B 0 C i j
          = blas.hemm sd uplo m n alpha A B 0 D i j)
  ∧ (∀ C D : ℕ → ℕ → R, ∀ i j, i < n → j < n → triRef uplo i j = true →
        blas.syrk uplo trans n k alpha A 0 C i j
          = blas.syrk uplo trans n k alpha A 0 D i j)
  ∧ (∀ C D : ℕ → ℕ → R, ∀ i j, i < n → j < n → triRef uplo i j = true →
        blas.herk uplo trans n k alpha A 0 C i j
          = blas.herk uplo trans n k alpha A 0 D i j)
  ∧ (∀ C D : ℕ → ℕ → R, ∀ i j, i < n → j < n → triRef uplo i j = true →
        blas.syr2k uplo trans n k alpha A B 0 C i j
          = blas.syr2k uplo trans n k alpha A B 0 D i j)
  ∧ (∀ C D : ℕ → ℕ → R, ∀ i j, i < n → j < n → triRef uplo i j = true →
        blas.her2k uplo trans n k alpha A B 0 C i j
          = blas.her2k uplo trans n k alpha A B 0 D i j) := by
  refine ⟨fun y z i hi => by simp [blas.gemv, hi],
    fun y z j hj => by simp [blas.gemv, hj],
    fun y z j hj => by simp [blas.gemv, hj],
    fun y z i hi => by simp [blas.hemv, hi],
    fun y z i hi => by simp [blas.symv, hi],
    fun C D i j hi hj => by simp [blas.gemm, hi, hj],
    fun sd C D i j hi hj => by cases sd <;> simp [blas.symm, hi, hj],
    fun sd C D i j hi hj => by cases sd <;> simp [blas.hemm, hi, hj],
    fun C D i j hi hj ht => by simp [blas.syrk, hi, hj, ht],
    fun C D i j hi hj ht => by simp [blas.herk, hi, hj, ht],
    fun C D i j hi hj ht => by simp [blas.syr2k, hi, hj, ht],
    fun C D i j hi hj ht => by simp [blas.her2k, hi, hj, ht]⟩

end ClaimsLevel3

section ClaimsLevel3Witness

/-- Witness for C9 at concrete 1-dimensional integer instances. -/
theorem beta_zero_destination_independence_witness :
    (∀ y z : VecView ℤ, ∀ i, i < (MatView.mk 1 1 (fun _ _ => (1 : ℤ)) true).m →
        (blas.gemv Op.NoTrans 1 (MatView.mk 1 1 (fun _ _ => (1 : ℤ)) true)
            (VecView.mk 1 fun _ => 1) 0 y).get i
          = (blas.gemv Op.NoTrans 1 (MatView.mk 1 1 (fun _ _ => (1 : ℤ)) true)
            (VecView.mk 1 fun _ => 1) 0 z).get i)
  ∧ (∀ y z : VecView ℤ, ∀ j, j < (MatView.mk 1 1 (fun _ _ => (1 : ℤ)) true).n →
        (blas.gemv Op.Trans 1 (MatView.mk 1 1 (fun _ _ => (1 : ℤ)) true)
            (VecView.mk 1 fun _ => 1) 0 y).get j
          = (blas.gemv Op.Trans 1 (MatView.mk 1 1 (fun _ _ => (1 : ℤ)) true)
            (VecView.mk 1 fun _ => 1) 0 z).get j)
  ∧ (∀ y z : VecView ℤ, ∀ j, j < (MatView.mk 1 1 (fun _ _ => (1 : ℤ)) true).n →
        (blas.gemv Op.ConjTrans 1 (MatView.mk 1 1 (fun _ _ => (1 : ℤ)) true)
            (VecView.mk 1 fun _ => 1) 0 y).get j
          = (blas.gemv Op.ConjTrans 1 (MatView.mk 1 1 (fun _ _ => (1 : ℤ)) true)
            (VecView.mk 1 fun _ => 1) 0 z).get j)
  ∧ (∀ y z : VecView ℤ, ∀ i, i < (MatView.mk 1 1 (fun _ _ => (1 : ℤ)) true).n →
        (blas.hemv Uplo.Upper 1 (MatView.mk 1 1 (fun _ _ => (1 : ℤ)) true)
            (VecView.mk 1 fun _ => 1) 0 y).get i
          = (blas.hemv Uplo.Upper 1 (MatView.mk 1 1 (fun _ _ => (1 : ℤ)) true)
            (VecView.mk 1 fun _ => 1) 0 z).get i)
  ∧ (∀ y z : VecView ℤ, ∀ i, i < (MatView.mk 1 1 (fun _ _ => (1 : ℤ)) true).n →
        (blas.symv Uplo.Upper 1 (MatView.mk 1 1 (fun _ _ => (1 : ℤ)) true)
            (VecView.mk 1 fun _ => 1) 0 y).get i
          = (blas.symv Uplo.Upper 1 (MatView.mk 1 1 (fun _ _ => (1 : ℤ)) true)
            (VecView.mk 1 fun _ => 1) 0 z).get i)
  ∧ (∀ C D : ℕ → ℕ → ℤ, ∀ i j, i < 1 → j < 1 →
        blas.gemm Op.NoTrans Op.NoTrans 1 1 1 1 (fun _ _ => 1) (fun _ _ => 1) 0 C i j
          = blas.gemm Op.NoTrans Op.NoTrans 1 1 1 1 (fun _ _ => 1) (fun _ _ => 1) 0 D i j)
  ∧ (∀ sd : blas.Side, ∀ C D : ℕ → ℕ → ℤ, ∀ i j, i < 1 → j < 1 →
        blas.symm sd Uplo.Upper 1 1 1 (fun _ _ => 1) (fun _ _ => 1) 0 C i j
          = blas.symm sd Uplo.Upper 1 1 1 (fun _ _ => 1) (fun _ _ => 1) 0 D i j)
  ∧ (∀ sd : blas.Side, ∀ C D : ℕ → ℕ → ℤ, ∀ i j, i < 1 → j < 1 →
        blas.hemm sd Uplo.Upper 1 1 1 (fun _ _ => 1) (fun _ _ => 1) 0 C i j
          = blas.hemm sd Uplo.Upper 1 1 1 (fun _ _ => 1) (fun _ _ => 1) 0 D i j)
  ∧ (∀ C D : ℕ → ℕ → ℤ, ∀ i j, i < 1 → j < 1 → triRef Uplo.Upper i j = true →
        blas.syrk Uplo.Upper Op.NoTrans 1 1 1 (fun _ _ => 1) 0 C i j
          = blas.syrk Uplo.Upper Op.NoTrans 1 1 1 (fun _ _ => 1) 0 D i j)
  ∧ (∀ C D : ℕ → ℕ → ℤ, ∀ i j, i < 1 → j < 1 → triRef Uplo.Upper i j = true →
        blas.herk Uplo.Upper Op.NoTrans 1 1 1 (fun _ _ => 1) 0 C i j
          = blas.herk Uplo.Upper Op.NoTrans 1 1 1 (fun _ _ => 1) 0 D i j)
  ∧ (∀ C D : ℕ → ℕ → ℤ, ∀ i j, i < 1 → j < 1 → triRef Uplo.Upper i j = true →
        blas.syr2k Uplo.Upper Op.NoTrans 1 1 1 (fun _ _ => 1) (fun _ _ => 1) 0 C i j
          = blas.syr2k Uplo.Upper Op.NoTrans 1 1 1 (fun _ _ => 1) (fun _ _ => 1) 0 D i j)
  ∧ (∀ C D : ℕ → ℕ → ℤ, ∀ i j, i < 1 → j < 1 → triRef Uplo.Upper i j = true →
        blas.her2k Uplo.Upper Op.NoTrans 1 1 1 (fun _ _ => 1) (fun _ _ => 1) 0 C i j
          = blas.her2k Uplo.Upper Op.NoTrans 1 1 1 (fun _ _ => 1) (fun _ _ => 1) 0 D i j) :=
  beta_zero_destination_independence 1 (MatView.mk 1 1 (fun _ _ => (1 : ℤ)) true)
    (VecView.mk 1 fun _ => 1) Uplo.Upper Op.NoTrans Op.NoTrans Op.NoTrans 1 1 1
    (fun _ _ => 1) (fun _ _ => 1)

end ClaimsLevel3Witness
